import Mathlib

/-!
Verification of the pixel-processing core of the utility-tools repository:
the Gemini watermark reversal engine and the adaptive compression pipeline
with its median-cut quantizer.  Pixel buffers are modelled as lists of
bytes (naturals), JavaScript number arithmetic on fractional values as
exact rationals, and `Math.round` as floor after adding one half.
-/

attribute [local semireducible] Rat.add Rat.mul Rat.sub Rat.inv

namespace UtilityTools

/-- JavaScript `Math.round`: round half toward positive infinity. -/
def jsRound (q : ℚ) : ℤ := ⌊q + 1/2⌋

/-- Read a byte from a pixel buffer (out-of-range reads yield 0). -/
def readByte (l : List Nat) (i : Nat) : Nat := l.getD i 0

/-- An RGBA pixel buffer together with its dimensions, mirroring `ImageData`. -/
structure ImageData where
  width : Nat
  height : Nat
  data : List Nat
deriving DecidableEq

/-! ## Watermark reversal engine (`removeWatermark`, part_002) -/

/-- Watermark size configuration, mirroring `WatermarkConfig`. -/
structure WatermarkConfig where
  size : Nat
  margin : Nat
deriving DecidableEq

/-- `getWatermarkConfig`: side 96 / margin 64 when both dimensions exceed
1024, else side 48 / margin 32. -/
def getWatermarkConfig (width height : Nat) : WatermarkConfig :=
  if 1024 < width ∧ 1024 < height then ⟨96, 64⟩ else ⟨48, 32⟩

/-- One channel of the reverse alpha blend: compute
`(watermarked - alpha * 255) / (1 - alpha)`, round, clamp to `[0, 255]`. -/
def recoverChannel (watermarked : Nat) (alpha : ℚ) : Nat :=
  let original : ℚ := ((watermarked : ℚ) - alpha * 255) / (1 - alpha)
  (max 0 (min 255 (jsRound original))).toNat

/-- Body of the per-cell loop of `removeWatermark`: skip the cell when its
image coordinate is out of bounds or its mask opacity is below 0.002,
otherwise clamp the opacity to 0.99 and rewrite the three colour channels
of the target pixel in `out`, reading the watermarked values from `data`. -/
def processCell (width height size : Nat) (posX posY : ℤ) (alphaMap : Nat → ℚ)
    (data out : List Nat) (row col : Nat) : List Nat :=
  if posX + col < 0 ∨ (width : ℤ) ≤ posX + col ∨
      posY + row < 0 ∨ (height : ℤ) ≤ posY + row then out
  else if alphaMap (row * size + col) < 1/500 then out
  else
    let alpha := min (alphaMap (row * size + col)) (99/100)
    let pixelIdx := ((posY + row).toNat * width + (posX + col).toNat) * 4
    ((out.set pixelIdx (recoverChannel (readByte data pixelIdx) alpha)).set
        (pixelIdx + 1) (recoverChannel (readByte data (pixelIdx + 1)) alpha)).set
      (pixelIdx + 2) (recoverChannel (readByte data (pixelIdx + 2)) alpha)

/-- Core of `removeWatermark` for a fixed size/margin configuration: the
watermark is anchored at the bottom-right corner and every mask cell is
processed over a fresh copy of the input data. -/
def removeWatermark (img : ImageData) (size margin : Nat) (alphaMap : Nat → ℚ) :
    ImageData :=
  let posX : ℤ := (img.width : ℤ) - margin - size
  let posY : ℤ := (img.height : ℤ) - margin - size
  ⟨img.width, img.height,
    (List.range size).foldl (fun acc row =>
      (List.range size).foldl (fun acc2 col =>
        processCell img.width img.height size posX posY alphaMap img.data acc2
          row col) acc)
      img.data⟩

/-- `removeWatermark` including the configuration choice: a forced size uses
margin 32 for side 48 and margin 64 otherwise, while the default consults
`getWatermarkConfig`. -/
def removeWatermarkFull (img : ImageData) (forceSize : Option Nat)
    (alphaMap : Nat → ℚ) : ImageData :=
  let config := match forceSize with
    | some s => WatermarkConfig.mk s (if s = 48 then 32 else 64)
    | none => getWatermarkConfig img.width img.height
  removeWatermark img config.size config.margin alphaMap

/-- The mask-cell index a given image pixel maps back to. -/
def maskCellIndex (width height size margin : Nat) (x y : Nat) : Nat :=
  (((y : ℤ) - ((height : ℤ) - margin - size)).toNat) * size +
    (((x : ℤ) - ((width : ℤ) - margin - size)).toNat)

/-- Membership of an image pixel in the watermark placement square. -/
def inWatermarkRegion (width height size margin : Nat) (x y : Nat) : Prop :=
  ((width : ℤ) - margin - size) ≤ x ∧ (x : ℤ) < ((width : ℤ) - margin - size) + size ∧
  ((height : ℤ) - margin - size) ≤ y ∧ (y : ℤ) < ((height : ℤ) - margin - size) + size

instance (width height size margin x y : Nat) :
    Decidable (inWatermarkRegion width height size margin x y) := by
  unfold inWatermarkRegion; infer_instance

/-! ## Median-cut quantizer (part_003) -/

/-- The colour channels of a packed 24-bit RGB value. -/
inductive Channel
  | r
  | g
  | b
deriving DecidableEq

/-- `getChannelValue`: extract one channel of a packed RGB value. -/
def getChannelValue (color : Nat) (channel : Channel) : Nat :=
  match channel with
  | .r => (color >>> 16) &&& 0xff
  | .g => (color >>> 8) &&& 0xff
  | .b => color &&& 0xff

/-- A quantization working box: a list of packed colours with per-channel
minima and maxima, mirroring `ColorBox`. -/
structure ColorBox where
  colors : List Nat
  rMin : Nat
  rMax : Nat
  gMin : Nat
  gMax : Nat
  bMin : Nat
  bMax : Nat
deriving DecidableEq

/-- `createColorBox`: fold over the colours accumulating the per-channel
minimum and maximum, starting from min 255 / max 0. -/
def createColorBox (colors : List Nat) : ColorBox :=
  colors.foldl (fun box color =>
      { box with
        rMin := min box.rMin ((color >>> 16) &&& 0xff)
        rMax := max box.rMax ((color >>> 16) &&& 0xff)
        gMin := min box.gMin ((color >>> 8) &&& 0xff)
        gMax := max box.gMax ((color >>> 8) &&& 0xff)
        bMin := min box.bMin (color &&& 0xff)
        bMax := max box.bMax (color &&& 0xff) })
    ⟨colors, 255, 0, 255, 0, 255, 0⟩

/-- `getBoxLongestChannel`: the channel of largest range, preferring r then
g on ties. -/
def getBoxLongestChannel (box : ColorBox) : Channel :=
  if (box.rMax : ℤ) - box.rMin ≥ (box.gMax : ℤ) - box.gMin ∧
      (box.rMax : ℤ) - box.rMin ≥ (box.bMax : ℤ) - box.bMin then .r
  else if (box.gMax : ℤ) - box.gMin ≥ (box.rMax : ℤ) - box.rMin ∧
      (box.gMax : ℤ) - box.gMin ≥ (box.bMax : ℤ) - box.bMin then .g
  else .b

/-- `splitColorBox`: sort the colours by the longest channel (stable, as
JavaScript `Array.prototype.sort` is) and split at the midpoint; `none`
when the box has fewer than two colours or a half would be empty. -/
def splitColorBox (box : ColorBox) : Option (ColorBox × ColorBox) :=
  if box.colors.length < 2 then none
  else
    let channel := getBoxLongestChannel box
    let sorted := box.colors.insertionSort
      (fun a b => getChannelValue a channel ≤ getChannelValue b channel)
    let mid := sorted.length / 2
    let left := sorted.take mid
    let right := sorted.drop mid
    if left.length = 0 ∨ right.length = 0 then none
    else some (createColorBox left, createColorBox right)

/-- The maximal per-channel range of a box, the sort key of the split loop. -/
def boxMaxRange (box : ColorBox) : ℤ :=
  max ((box.rMax : ℤ) - box.rMin)
    (max ((box.gMax : ℤ) - box.gMin) ((box.bMax : ℤ) - box.bMin))

/-- The descending order on boxes used by the split loop (stable sort by
largest range first). -/
def boxGE (a b : ColorBox) : Prop := boxMaxRange b ≤ boxMaxRange a

instance : DecidableRel boxGE := fun _ _ => Int.decLe _ _

/-- The `while boxes.length < maxColors` loop of `buildPalette`: sort the
boxes by decreasing range, pop the widest, split it, and push the halves;
push the box back and stop if it cannot be split.  Each successful round
grows the box list by one, so `maxColors` rounds of fuel are exactly
enough to reproduce the loop. -/
def splitLoop (fuel maxColors : Nat) (boxes : List ColorBox) : List ColorBox :=
  match fuel with
  | 0 => boxes
  | fuel + 1 =>
    if boxes.length < maxColors then
      match boxes.insertionSort boxGE with
      | [] => boxes
      | box :: rest =>
        match splitColorBox box with
        | none => rest ++ [box]
        | some (b1, b2) => splitLoop fuel maxColors (rest ++ [b1, b2])
    else boxes

/-- The palette colour of one terminal box: the rounded arithmetic mean of
each channel, repacked into 24 bits. -/
def boxMeanColor (box : ColorBox) : Nat :=
  let sums := box.colors.foldl
    (fun (s : Nat × Nat × Nat) color =>
      (s.1 + ((color >>> 16) &&& 0xff), s.2.1 + ((color >>> 8) &&& 0xff),
        s.2.2 + (color &&& 0xff)))
    (0, 0, 0)
  let count := max 1 box.colors.length
  let r := (jsRound ((sums.1 : ℚ) / count)).toNat
  let g := (jsRound ((sums.2.1 : ℚ) / count)).toNat
  let b := (jsRound ((sums.2.2 : ℚ) / count)).toNat
  (r <<< 16) ||| (g <<< 8) ||| b

/-- `buildPalette`: run the median-cut split loop from one box holding all
sampled colours and take each terminal box's mean colour. -/
def buildPalette (colors : List Nat) (maxColors : Nat) : List Nat :=
  if colors.length = 0 then []
  else (splitLoop maxColors maxColors [createColorBox colors]).map boxMeanColor

/-- Squared Euclidean RGB distance between two packed colours. -/
def colorDist (c p : Nat) : ℤ :=
  let dr : ℤ := (((c >>> 16) &&& 0xff : Nat) : ℤ) - (((p >>> 16) &&& 0xff : Nat) : ℤ)
  let dg : ℤ := (((c >>> 8) &&& 0xff : Nat) : ℤ) - (((p >>> 8) &&& 0xff : Nat) : ℤ)
  let db : ℤ := ((c &&& 0xff : Nat) : ℤ) - ((p &&& 0xff : Nat) : ℤ)
  dr * dr + dg * dg + db * db

/-- One iteration of the linear palette scan: replace the best candidate
exactly when the new distance is strictly smaller (an uninitialised best
distance, JavaScript's `Infinity`, is modelled by `none`). -/
def scanStep (c : Nat) (acc : Nat × Option ℤ) (p : Nat) : Nat × Option ℤ :=
  let d := colorDist c p
  match acc.2 with
  | none => (p, some d)
  | some bd => if d < bd then (p, some d) else acc

/-- The linear palette scan of the remap step: start from `palette[0]` with
an infinite best distance and keep the first strict minimum. -/
def scanNearest (palette : List Nat) (c : Nat) : Nat :=
  (palette.foldl (scanStep c) (palette.headD 0, none)).1

/-- The packed colour of the pixel starting at byte offset `offset`. -/
def pixelColor (d : List Nat) (offset : Nat) : Nat :=
  (readByte d offset <<< 16) ||| (readByte d (offset + 1) <<< 8) |||
    readByte d (offset + 2)

/-- Write the three colour channels of a mapped palette colour at `offset`,
leaving the alpha byte alone. -/
def writeColor (d : List Nat) (offset m : Nat) : List Nat :=
  ((d.set offset ((m >>> 16) &&& 0xff)).set (offset + 1) ((m >>> 8) &&& 0xff)).set
    (offset + 2) (m &&& 0xff)

/-- Body of the remap loop of `quantizeImageData`: skip fully transparent
pixels; otherwise look the exact source colour up in the memo cache,
falling back to a fresh linear palette scan, and rewrite the pixel. -/
def remapPixel (palette : List Nat) (st : List Nat × List (Nat × Nat))
    (i : Nat) : List Nat × List (Nat × Nat) :=
  let offset := i * 4
  if readByte st.1 (offset + 3) = 0 then st
  else
    let color := pixelColor st.1 offset
    match List.lookup color st.2 with
    | some m => (writeColor st.1 offset m, st.2)
    | none =>
      let m := scanNearest palette color
      (writeColor st.1 offset m, (color, m) :: st.2)

/-- The indices visited by the sampling loop `for (i = 0; i < total; i += stride)`. -/
def sampleIndices (total stride : Nat) : List Nat :=
  (List.range ((total + stride - 1) / stride)).map (fun k => k * stride)

/-- The sampled colours of a buffer: walk the pixels at the sampling stride
and collect the packed colours of the non-fully-transparent ones. -/
def sampleColorsOf (img : ImageData) (sampleSize : Nat) : List Nat :=
  let totalPixels := img.data.length / 4
  let stride := max 1 (totalPixels / sampleSize)
  (sampleIndices totalPixels stride).filterMap (fun i =>
    if readByte img.data (i * 4 + 3) = 0 then none
    else some (pixelColor img.data (i * 4)))

/-- The palette `quantizeImageData` builds for a given buffer. -/
def paletteOf (img : ImageData) (maxColors sampleSize : Nat) : List Nat :=
  buildPalette (sampleColorsOf img sampleSize) maxColors

/-- `quantizeImageData`: build the palette from the sampled colours and,
when it is non-empty, remap every pixel of the full buffer through the
memoized nearest-palette-colour scan. -/
def quantizeImageData (img : ImageData) (maxColors sampleSize : Nat) :
    ImageData :=
  let palette := paletteOf img maxColors sampleSize
  if palette = [] then img
  else
    ⟨img.width, img.height,
      ((List.range (img.data.length / 4)).foldl (remapPixel palette)
        (img.data, [])).1⟩

/-! ## Adaptive compression pipeline (`compressImage`, part_003)

The canvas/encoder backend is external to the core: it is modelled as an
oracle (`CompressEnv`) providing the capability probe
`isCanvasTypeSupported`, the size of each encoded blob, and the result of
`analyzeCanvas`.  The decision logic of `compressImage` is embedded
faithfully on top of this oracle. -/

/-- `resolveTargetSize`'s scale factor: limits of 0 are treated as
unbounded (replaced by the source dimension), and the scale never
exceeds 1. -/
def scaleRatio (width height maxWidth maxHeight : Nat) : ℚ :=
  min
    (min (((if 0 < maxWidth then maxWidth else width : Nat) : ℚ) / width)
      (((if 0 < maxHeight then maxHeight else height : Nat) : ℚ) / height))
    1

/-- `resolveTargetSize`: scale both dimensions by `scaleRatio`, round, and
force a minimum of one pixel per axis. -/
def resolveTargetSize (width height maxWidth maxHeight : Nat) : Nat × Nat :=
  let ratio := scaleRatio width height maxWidth maxHeight
  (max 1 (jsRound ((width : ℚ) * ratio)).toNat,
    max 1 (jsRound ((height : ℚ) * ratio)).toNat)

/-- Result of `analyzeCanvas`: alpha presence and the (capped) unique
colour count of the downsampled analysis buffer. -/
structure ImageAnalysis where
  hasAlpha : Bool
  uniqueColors : Nat
deriving DecidableEq

/-- The decoded source file as seen by `compressImage`: its MIME type, its
byte size, and the bitmap dimensions. -/
structure FileInfo where
  fileType : String
  fileSize : Nat
  width : Nat
  height : Nat
deriving DecidableEq

/-- The caller-supplied `CompressOptions`. -/
structure CompressOptions where
  outputFormat : String
  quality : ℚ
  maxWidth : Nat
  maxHeight : Nat
  enableQuantization : Bool
  quantizeColors : Nat
  quantizeMaxPixels : Nat
  quantizeSampleSize : Nat
  keepOriginalIfLarger : Option Bool

/-- The three intermediate canvases a candidate can be rendered from:
the resized base canvas, the background-filled canvas used for JPEG, and
the quantized canvas. -/
inductive CanvasKind
  | base
  | jpegBg
  | quant
deriving DecidableEq

/-- The imaging backend oracle: the `isCanvasTypeSupported` capability
probe, the byte size produced by encoding a given canvas to a given type
at a given quality, and the result of `analyzeCanvas`. -/
structure CompressEnv where
  supports : String → Bool
  encSize : CanvasKind → String → Option ℚ → Nat
  analysisResult : Option ImageAnalysis

/-- The failure modes of the modelled pipeline: the requested fixed output
format is unsupported by the backend, or no candidate could be produced. -/
inductive CompressError
  | unsupportedOutput
  | noCandidate
deriving DecidableEq

/-- The modelled `CompressResult`: whether the returned blob is the
original file or an encoded candidate, its size, the reported output type
and dimensions, and the `usedOriginal` / `note` fields. -/
structure CompressResultM where
  blobIsOriginal : Bool
  blobSize : Nat
  outputType : String
  width : Nat
  height : Nat
  outputWidth : Nat
  outputHeight : Nat
  usedOriginal : Bool
  hasNote : Bool
deriving DecidableEq

/-- `isLossyType`: membership in the lossy format set. -/
def isLossyType (t : String) : Bool :=
  t = "image/jpeg" ∨ t = "image/webp" ∨ t = "image/avif"

/-- `resolveOutputType`: `auto` falls back from BMP to PNG and otherwise
keeps the input type (or JPEG when the input type is empty); a fixed
format is returned as-is. -/
def resolveOutputType (inputType outputFormat : String) : String :=
  if outputFormat = "auto" then
    if inputType = "image/bmp" then "image/png"
    else if inputType = "" then "image/jpeg"
    else inputType
  else outputFormat

/-- `resolveCanvas` cache selection: JPEG always renders from the
background-filled canvas, quantized candidates from the quantized canvas,
everything else from the base canvas. -/
def resolveCanvasKind (t : String) (quantized : Bool) : CanvasKind :=
  if t = "image/jpeg" then .jpegBg
  else if quantized then .quant
  else .base

/-- `addCandidate`: skip unsupported types and already-seen
(type, quantized) pairs, otherwise append. -/
def addCandidate (env : CompressEnv) (cands : List (String × Bool))
    (t : String) (quantized : Bool) : List (String × Bool) :=
  if env.supports t = false then cands
  else if (t, quantized) ∈ cands then cands
  else cands ++ [(t, quantized)]

/-- Whether `analyzeCanvas` runs for this call: auto mode, or quantization
requested for a PNG output. -/
def analyzeNeeded (file : FileInfo) (opts : CompressOptions) : Prop :=
  opts.outputFormat = "auto" ∨
    (opts.enableQuantization = true ∧
      resolveOutputType file.fileType opts.outputFormat = "image/png")

instance (file : FileInfo) (opts : CompressOptions) :
    Decidable (analyzeNeeded file opts) := by
  unfold analyzeNeeded; infer_instance

/-- The analysis actually available to the call (`null` when not needed
or when the analysis canvas had no context). -/
def analysisOf (file : FileInfo) (opts : CompressOptions) (env : CompressEnv) :
    Option ImageAnalysis :=
  if analyzeNeeded file opts then env.analysisResult else none

/-- The per-call `hasAlpha` flag: the analysis result when present, else
whether the input type is an alpha-capable format. -/
def hasAlphaOf (file : FileInfo) (opts : CompressOptions) (env : CompressEnv) :
    Bool :=
  match analysisOf file opts env with
  | some a => a.hasAlpha
  | none =>
    decide (file.fileType = "image/png" ∨ file.fileType = "image/webp" ∨
      file.fileType = "image/avif")

/-- The clamped quantization colour budget `max(8, round(quantizeColors))`. -/
def quantizeLimitOf (opts : CompressOptions) : Nat := max 8 opts.quantizeColors

/-- The `canQuantize` eligibility flag. -/
def canQuantizeOf (file : FileInfo) (opts : CompressOptions)
    (env : CompressEnv) : Bool :=
  let target := resolveTargetSize file.width file.height opts.maxWidth
    opts.maxHeight
  opts.enableQuantization &&
    decide (8 ≤ quantizeLimitOf opts) &&
    decide (target.1 * target.2 ≤ opts.quantizeMaxPixels) &&
    (match analysisOf file opts env with
      | some a => decide (a.uniqueColors ≤ quantizeLimitOf opts * 2)
      | none => false)

/-- The auto-mode candidate list, in generation order. -/
def autoCandidates (file : FileInfo) (env : CompressEnv)
    (hasAlpha canQuantize : Bool) : List (String × Bool) :=
  let fallbackType := if hasAlpha then "image/png" else "image/jpeg"
  let resolvedBase := resolveOutputType file.fileType "auto"
  let resolvedSupported :=
    if env.supports resolvedBase then resolvedBase else fallbackType
  let baseType :=
    if hasAlpha = true ∧ resolvedSupported = "image/jpeg" then "image/png"
    else resolvedSupported
  let c1 := addCandidate env [] baseType false
  let c2 := if baseType = "image/png" ∧ canQuantize = true then
      addCandidate env c1 "image/png" true
    else c1
  if hasAlpha then
    let d1 := addCandidate env c2 "image/webp" false
    let d2 := addCandidate env d1 "image/avif" false
    if baseType ≠ "image/png" then
      let d3 := addCandidate env d2 "image/png" false
      if canQuantize then addCandidate env d3 "image/png" true else d3
    else d2
  else
    addCandidate env
      (addCandidate env (addCandidate env c2 "image/jpeg" false)
        "image/webp" false)
      "image/avif" false

/-- The encoded byte size of one candidate: quality is passed only for
lossy formats. -/
def candidateSize (opts : CompressOptions) (env : CompressEnv)
    (cand : String × Bool) : Nat :=
  env.encSize (resolveCanvasKind cand.1 cand.2) cand.1
    (if isLossyType cand.1 then some opts.quality else none)

/-- The winner-selection loop: keep the first candidate of strictly
smallest encoded size. -/
def pickBest (opts : CompressOptions) (env : CompressEnv)
    (cands : List (String × Bool)) : Option ((String × Bool) × Nat) :=
  cands.foldl
    (fun best cand =>
      let size := candidateSize opts env cand
      match best with
      | none => some (cand, size)
      | some b => if size < b.2 then some (cand, size) else best)
    none

/-- The decision flow of `compressImage`: resize, analyze, fixed-format
early return (with the unsupported-format failure), auto-mode candidate
generation, winner selection, and the keep-original fallback. -/
def compressImage (file : FileInfo) (opts : CompressOptions)
    (env : CompressEnv) : Except CompressError CompressResultM :=
  let keepOriginalIfLarger := opts.keepOriginalIfLarger.getD true
  let target := resolveTargetSize file.width file.height opts.maxWidth
    opts.maxHeight
  let outputWidth := target.1
  let outputHeight := target.2
  if opts.outputFormat ≠ "auto" then
    let outputType := resolveOutputType file.fileType opts.outputFormat
    if env.supports outputType = false then .error .unsupportedOutput
    else
      let shouldQuantize := canQuantizeOf file opts env &&
        decide (outputType = "image/png")
      let quality := if isLossyType outputType then some opts.quality else none
      let size := env.encSize (resolveCanvasKind outputType shouldQuantize)
        outputType quality
      .ok ⟨false, size, outputType, file.width, file.height, outputWidth,
        outputHeight, false, false⟩
  else
    let cands := autoCandidates file env (hasAlphaOf file opts env)
      (canQuantizeOf file opts env)
    match pickBest opts env cands with
    | none => .error .noCandidate
    | some best =>
      if keepOriginalIfLarger = true ∧ outputWidth = file.width ∧
          outputHeight = file.height ∧ 0 < file.fileSize ∧
          file.fileSize ≤ best.2 then
        .ok ⟨true, file.fileSize,
          (if file.fileType = "" then best.1.1 else file.fileType),
          file.width, file.height, outputWidth, outputHeight, true, true⟩
      else
        .ok ⟨false, best.2, best.1.1, file.width, file.height, outputWidth,
          outputHeight, false, false⟩

/-! ## Concrete instances used by witnesses and counterexamples -/

/-- An environment whose encoder always produces 100-byte blobs and which
supports every format. -/
def bigEnv : CompressEnv := ⟨fun _ => true, fun _ _ _ => 100, none⟩

/-- An environment that supports no output format at all. -/
def noneEnv : CompressEnv := ⟨fun _ => false, fun _ _ _ => 0, none⟩

/-- An opaque-analysis environment with 100-byte blobs. -/
def opaqueEnv : CompressEnv :=
  ⟨fun _ => true, fun _ _ _ => 100, some ⟨false, 1000000⟩⟩

/-- Fixed-format PNG options with quantization disabled and no resizing. -/
def pngFixedOpts : CompressOptions :=
  ⟨"image/png", 8/10, 0, 0, false, 256, 1000000, 20000, some true⟩

/-- Auto-format options with quantization disabled and no resizing. -/
def autoOpts : CompressOptions :=
  ⟨"auto", 8/10, 0, 0, false, 256, 1000000, 20000, some true⟩

/-- A 10×10 PNG source file of 50 bytes. -/
def smallFile : FileInfo := ⟨"image/png", 50, 10, 10⟩

/-- A 10×10 JPEG source file of 50 bytes. -/
def smallJpegFile : FileInfo := ⟨"image/jpeg", 50, 10, 10⟩

/-! ## Basic lemmas about buffers and rounding -/

theorem readByte_set_ne (l : List Nat) {i j : Nat} (v : Nat) (h : i ≠ j) :
    readByte (l.set j v) i = readByte l i := by
  simp [readByte, List.getD_eq_getElem?_getD, List.getElem?_set_ne (by omega : j ≠ i)]

theorem readByte_set_self (l : List Nat) {j : Nat} (v : Nat) (h : j < l.length) :
    readByte (l.set j v) j = v := by
  simp [readByte, List.getD_eq_getElem?_getD, List.getElem?_set_eq_of_lt v h]

theorem jsRound_natCast (n : Nat) : jsRound (n : ℚ) = n := by
  show ⌊(n : ℚ) + 1/2⌋ = (n : ℤ)
  apply Int.floor_eq_iff.mpr
  constructor
  · push_cast; linarith
  · push_cast; linarith

theorem jsRound_le_natCast {q : ℚ} {n : Nat} (h : q ≤ n) : jsRound q ≤ n := by
  calc jsRound q ≤ jsRound (n : ℚ) := Int.floor_le_floor (by linarith)
    _ = n := jsRound_natCast n

/-! ## C2: watermark size classification -/

/-- C2: `getWatermarkConfig` (the spec's `classifyWatermark`) returns
side 96 / margin 64 exactly when both dimensions exceed 1024, and side 48
/ margin 32 otherwise; in particular a 1024×2000 image classifies as
48/32. -/
theorem getWatermarkConfig_threshold (w h : Nat) (hw : 0 < w) (hh : 0 < h) :
    (getWatermarkConfig w h = ⟨96, 64⟩ ↔ (1024 < w ∧ 1024 < h)) ∧
    (¬ (1024 < w ∧ 1024 < h) → getWatermarkConfig w h = ⟨48, 32⟩) ∧
    getWatermarkConfig 1024 2000 = ⟨48, 32⟩ := by
  refine ⟨⟨fun hcfg => ?_, fun hc => by simp [getWatermarkConfig, hc]⟩,
    fun hc => by simp [getWatermarkConfig, hc], by decide⟩
  by_contra hc
  simp [getWatermarkConfig, hc] at hcfg

/-- Witness for C2 at the claim's boundary case. -/
theorem getWatermarkConfig_threshold_witness :
    0 < 1024 ∧ 0 < 2000 ∧
    ((getWatermarkConfig 1024 2000 = ⟨96, 64⟩ ↔ (1024 < 1024 ∧ 1024 < 2000)) ∧
      (¬ (1024 < 1024 ∧ 1024 < 2000) → getWatermarkConfig 1024 2000 = ⟨48, 32⟩) ∧
      getWatermarkConfig 1024 2000 = ⟨48, 32⟩) :=
  ⟨by decide, by decide, getWatermarkConfig_threshold 1024 2000 (by decide) (by decide)⟩

/-! ## C3: resize step -/

/-- C3: the resize step scales by
`min(maxWidth/width, maxHeight/height, 1)` with zero limits treated as
unbounded, rounds with a one-pixel minimum per axis, never exceeds the
source dimensions, and is the identity when both limits are zero. -/
theorem resolveTargetSize_spec (width height maxWidth maxHeight : Nat)
    (hw : 1 ≤ width) (hh : 1 ≤ height) :
    resolveTargetSize width height maxWidth maxHeight =
      (max 1 (jsRound ((width : ℚ) * scaleRatio width height maxWidth maxHeight)).toNat,
        max 1 (jsRound ((height : ℚ) * scaleRatio width height maxWidth maxHeight)).toNat) ∧
    (resolveTargetSize width height maxWidth maxHeight).1 ≤ width ∧
    (resolveTargetSize width height maxWidth maxHeight).2 ≤ height ∧
    1 ≤ (resolveTargetSize width height maxWidth maxHeight).1 ∧
    1 ≤ (resolveTargetSize width height maxWidth maxHeight).2 ∧
    (maxWidth = 0 → maxHeight = 0 →
      resolveTargetSize width height maxWidth maxHeight = (width, height)) := by
  have hratio1 : scaleRatio width height maxWidth maxHeight ≤ 1 :=
    min_le_right _ _
  have hwq : (0 : ℚ) ≤ (width : ℚ) := by positivity
  have hhq : (0 : ℚ) ≤ (height : ℚ) := by positivity
  have hwle : (jsRound ((width : ℚ) * scaleRatio width height maxWidth maxHeight)).toNat ≤ width := by
    rw [Int.toNat_le]
    exact jsRound_le_natCast (by nlinarith)
  have hhle : (jsRound ((height : ℚ) * scaleRatio width height maxWidth maxHeight)).toNat ≤ height := by
    rw [Int.toNat_le]
    exact jsRound_le_natCast (by nlinarith)
  refine ⟨rfl, ?_, ?_, ?_, ?_, ?_⟩
  · exact Nat.max_le.mpr ⟨hw, hwle⟩
  · exact Nat.max_le.mpr ⟨hh, hhle⟩
  · exact Nat.le_max_left _ _
  · exact Nat.le_max_left _ _
  · intro hmw hmh
    have hws : ((width : Nat) : ℚ) ≠ 0 := by positivity
    have hhs : ((height : Nat) : ℚ) ≠ 0 := by positivity
    have hr : scaleRatio width height maxWidth maxHeight = 1 := by
      simp [scaleRatio, hmw, hmh, div_self hws, div_self hhs]
    simp only [resolveTargetSize, hr, mul_one, jsRound_natCast, Int.toNat_natCast]
    rw [Nat.max_eq_right hw, Nat.max_eq_right hh]

/-- Witness for C3 at a shrinking and an unbounded instance. -/
theorem resolveTargetSize_spec_witness :
    1 ≤ 10 ∧ 1 ≤ 20 ∧
    ((resolveTargetSize 10 20 0 0).1 ≤ 10 ∧ (resolveTargetSize 10 20 0 0).2 ≤ 20 ∧
      (0 = 0 → 0 = 0 → resolveTargetSize 10 20 0 0 = (10, 20))) := by
  have h := resolveTargetSize_spec 10 20 0 0 (by decide) (by decide)
  exact ⟨by decide, by decide, h.2.1, h.2.2.1, h.2.2.2.2.2⟩

/-! ## Generic lemmas about folds of byte-buffer updates -/

theorem foldl_id {α : Type} (step : List Nat → α → List Nat) (l : List α)
    (out : List Nat) (h : ∀ b ∈ l, ∀ o : List Nat, step o b = o) :
    l.foldl step out = out := by
  induction l generalizing out with
  | nil => rfl
  | cons hd tl ih =>
    rw [List.foldl_cons, h hd (List.mem_cons_self hd tl),
      ih out (fun b hb o => h b (List.mem_cons_of_mem hd hb) o)]

theorem foldl_readByte_untouched {α : Type} (step : List Nat → α → List Nat)
    (i : Nat) (l : List α) (out : List Nat)
    (h : ∀ b ∈ l, ∀ o : List Nat, readByte (step o b) i = readByte o i) :
    readByte (l.foldl step out) i = readByte out i := by
  induction l generalizing out with
  | nil => rfl
  | cons hd tl ih =>
    rw [List.foldl_cons, ih _ (fun b hb o => h b (List.mem_cons_of_mem hd hb) o),
      h hd (List.mem_cons_self hd tl)]

theorem foldl_length_invariant {α : Type} (step : List Nat → α → List Nat)
    (n : Nat) (l : List α) (out : List Nat) (hout : out.length = n)
    (h : ∀ (o : List Nat) (b : α), o.length = n → (step o b).length = n) :
    (l.foldl step out).length = n := by
  induction l generalizing out with
  | nil => exact hout
  | cons hd tl ih => exact ih _ (h out hd hout)

/-- If every step either leaves byte `i` alone or sets it to `v`
(independently of the accumulator), a value `v` at `i` is pinned. -/
theorem foldl_readByte_pinned {α : Type} (step : List Nat → α → List Nat)
    (i v n : Nat)
    (hstep : ∀ (o : List Nat) (b : α), o.length = n → (step o b).length = n)
    (l : List α) (out : List Nat) (hout : out.length = n)
    (hv : readByte out i = v)
    (h : ∀ b ∈ l, (∀ o : List Nat, o.length = n →
        readByte (step o b) i = readByte o i) ∨
      (∀ o : List Nat, o.length = n → readByte (step o b) i = v)) :
    readByte (l.foldl step out) i = v := by
  induction l generalizing out with
  | nil => exact hv
  | cons hd tl ih =>
    rw [List.foldl_cons]
    refine ih _ (hstep out hd hout) ?_
      (fun b hb => h b (List.mem_cons_of_mem hd hb))
    rcases h hd (List.mem_cons_self hd tl) with hpres | hwrite
    · rw [hpres out hout, hv]
    · exact hwrite out hout

/-- If some step of the fold writes `v` at byte `i` (independently of the
accumulator) and every step either preserves `i` or writes `v` there, the
fold ends with `v` at `i`. -/
theorem foldl_readByte_write {α : Type} (step : List Nat → α → List Nat)
    (i v n : Nat)
    (hstep : ∀ (o : List Nat) (b : α), o.length = n → (step o b).length = n)
    (l : List α) (b0 : α) (out : List Nat) (hout : out.length = n)
    (hmem : b0 ∈ l)
    (hw : ∀ o : List Nat, o.length = n → readByte (step o b0) i = v)
    (hall : ∀ b ∈ l, (∀ o : List Nat, o.length = n →
        readByte (step o b) i = readByte o i) ∨
      (∀ o : List Nat, o.length = n → readByte (step o b) i = v)) :
    readByte (l.foldl step out) i = v := by
  obtain ⟨s, t, rfl⟩ := List.append_of_mem hmem
  rw [List.foldl_append, List.foldl_cons]
  have hslen : (s.foldl step out).length = n :=
    foldl_length_invariant step n s out hout hstep
  refine foldl_readByte_pinned step i v n hstep t _ (hstep _ b0 hslen)
    (hw _ hslen) ?_
  intro b hb
  exact hall b (by simp [hb])

/-! ## Pointwise behaviour of `processCell` -/

theorem processCell_skip (width height size : Nat) (posX posY : ℤ)
    (alphaMap : Nat → ℚ) (data out : List Nat) (row col : Nat)
    (h : posX + col < 0 ∨ (width : ℤ) ≤ posX + col ∨
      posY + row < 0 ∨ (height : ℤ) ≤ posY + row) :
    processCell width height size posX posY alphaMap data out row col = out := by
  rw [processCell, if_pos h]

theorem processCell_skip_alpha (width height size : Nat) (posX posY : ℤ)
    (alphaMap : Nat → ℚ) (data out : List Nat) (row col : Nat)
    (h : alphaMap (row * size + col) < 1/500) :
    processCell width height size posX posY alphaMap data out row col = out := by
  unfold processCell
  by_cases hb : (posX + col < 0 ∨ (width : ℤ) ≤ posX + col ∨
    posY + row < 0 ∨ (height : ℤ) ≤ posY + row)
  · rw [if_pos hb]
  · rw [if_neg hb, if_pos h]

theorem processCell_length (width height size : Nat) (posX posY : ℤ)
    (alphaMap : Nat → ℚ) (data out : List Nat) (row col : Nat) :
    (processCell width height size posX posY alphaMap data out row col).length =
      out.length := by
  rw [processCell]
  split
  · rfl
  · split
    · rfl
    · simp

/-- A cell leaves every byte outside its own three channel slots alone. -/
theorem processCell_preserve (width height size : Nat) (posX posY : ℤ)
    (alphaMap : Nat → ℚ) (data out : List Nat) (row col : Nat) (i : Nat)
    (h : ∀ c : Nat, c < 3 →
      i ≠ ((posY + row).toNat * width + (posX + col).toNat) * 4 + c) :
    readByte (processCell width height size posX posY alphaMap data out row col) i =
      readByte out i := by
  rw [processCell]
  split
  · rfl
  · split
    · rfl
    · rw [readByte_set_ne _ _ (h 2 (by omega)),
        readByte_set_ne _ _ (h 1 (by omega))]
      exact readByte_set_ne _ _ (by simpa using h 0 (by omega))

/-- A processed in-bounds cell writes the recovered channel values. -/
theorem processCell_write (width height size : Nat) (posX posY : ℤ)
    (alphaMap : Nat → ℚ) (data out : List Nat) (row col : Nat)
    (hin : ¬ (posX + col < 0 ∨ (width : ℤ) ≤ posX + col ∨
      posY + row < 0 ∨ (height : ℤ) ≤ posY + row))
    (ha : ¬ alphaMap (row * size + col) < 1/500)
    (c : Nat) (hc : c < 3)
    (hlen : ((posY + row).toNat * width + (posX + col).toNat) * 4 + 2 < out.length) :
    readByte (processCell width height size posX posY alphaMap data out row col)
        (((posY + row).toNat * width + (posX + col).toNat) * 4 + c) =
      recoverChannel
        (readByte data (((posY + row).toNat * width + (posX + col).toNat) * 4 + c))
        (min (alphaMap (row * size + col)) (99/100)) := by
  rw [processCell, if_neg hin, if_neg ha]
  set pixelIdx := ((posY + row).toNat * width + (posX + col).toNat) * 4 with hpi
  interval_cases c
  · rw [readByte_set_ne _ _ (by omega), readByte_set_ne _ _ (by omega)]
    have : pixelIdx + 0 = pixelIdx := by omega
    rw [this]
    exact readByte_set_self _ _ (by omega)
  · rw [readByte_set_ne _ _ (by omega)]
    exact readByte_set_self _ _ (by simp; omega)
  · exact readByte_set_self _ _ (by simp; omega)

/-- Row-major pixel addressing is injective. -/
theorem rowcol_inj {w x x2 y y2 : Nat} (hx : x < w) (hx2 : x2 < w)
    (h : y * w + x = y2 * w + x2) : y = y2 ∧ x = x2 := by
  have hw : 0 < w := by omega
  have h1 : (y * w + x) / w = y := by
    rw [Nat.mul_comm y w, Nat.mul_add_div hw, Nat.div_eq_of_lt hx, Nat.add_zero]
  have h2 : (y2 * w + x2) / w = y2 := by
    rw [Nat.mul_comm y2 w, Nat.mul_add_div hw, Nat.div_eq_of_lt hx2, Nat.add_zero]
  have h3 : (y * w + x) % w = x := by
    rw [Nat.mul_comm y w, Nat.mul_add_mod, Nat.mod_eq_of_lt hx]
  have h4 : (y2 * w + x2) % w = x2 := by
    rw [Nat.mul_comm y2 w, Nat.mul_add_mod, Nat.mod_eq_of_lt hx2]
  constructor
  · rw [← h1, ← h2, h]
  · rw [← h3, ← h4, h]

/-- A cell that does not map exactly onto pixel `(x, y)` leaves every byte
of that pixel alone, and no cell at all touches its alpha byte (`c = 3`). -/
theorem processCell_preserve_pixel (width height size : Nat) (posX posY : ℤ)
    (alphaMap : Nat → ℚ) (data out : List Nat) (row2 col2 x y c : Nat)
    (hxw : x < width) (hyh : y < height) (hc : c < 4)
    (hne : (¬ (posX + col2 = (x : ℤ) ∧ posY + row2 = (y : ℤ))) ∨ c = 3) :
    readByte (processCell width height size posX posY alphaMap data out row2 col2)
        ((y * width + x) * 4 + c) = readByte out ((y * width + x) * 4 + c) := by
  by_cases hb : (posX + col2 < 0 ∨ (width : ℤ) ≤ posX + col2 ∨
    posY + row2 < 0 ∨ (height : ℤ) ≤ posY + row2)
  · rw [processCell_skip _ _ _ _ _ _ _ _ _ _ hb]
  · push_neg at hb
    obtain ⟨hb1, hb2, hb3, hb4⟩ := hb
    apply processCell_preserve
    intro c2 hc2
    have hx2 : ((posX + col2).toNat : ℤ) = posX + col2 := Int.toNat_of_nonneg hb1
    have hy2 : ((posY + row2).toNat : ℤ) = posY + row2 := Int.toNat_of_nonneg hb3
    have hx2w : (posX + col2).toNat < width := by omega
    have hy2h : (posY + row2).toNat < height := by omega
    rcases hne with hne | hne
    · have hpix : (posX + col2).toNat ≠ x ∨ (posY + row2).toNat ≠ y := by
        by_contra hcon
        push_neg at hcon
        exact hne ⟨by omega, by omega⟩
      intro heq
      have hAB : y * width + x = (posY + row2).toNat * width + (posX + col2).toNat
          ∧ c = c2 := by
        set A := y * width + x with hA
        set B := (posY + row2).toNat * width + (posX + col2).toNat with hB
        omega
      have := rowcol_inj hxw hx2w hAB.1
      rcases hpix with hpix | hpix
      · exact hpix this.2.symm
      · exact hpix this.1.symm
    · subst hne
      intro heq
      have : y * width + x = (posY + row2).toNat * width + (posX + col2).toNat
          ∧ (3 : Nat) = c2 := by
        set A := y * width + x with hA
        set B := (posY + row2).toNat * width + (posX + col2).toNat with hB
        omega
      omega

/-- A pixel's byte indices lie inside the buffer. -/
theorem pixel_byte_lt {w h x y c : Nat} (hxw : x < w) (hyh : y < h) (hc : c < 4) :
    (y * w + x) * 4 + c < w * h * 4 := by
  have h1 : y * w + x < w * h := by
    calc y * w + x < y * w + w := Nat.add_lt_add_left hxw _
      _ = (y + 1) * w := by ring
      _ ≤ h * w := mul_le_mul_right' hyh w
      _ = w * h := Nat.mul_comm h w
  set A := y * w + x with hA
  set B := w * h with hB
  omega

/-- The pixel data of `removeWatermark`, exposed as a nested fold. -/
theorem removeWatermark_data (img : ImageData) (size margin : Nat)
    (alphaMap : Nat → ℚ) :
    (removeWatermark img size margin alphaMap).data =
      (List.range size).foldl (fun acc row =>
        (List.range size).foldl (fun acc2 col =>
          processCell img.width img.height size ((img.width : ℤ) - margin - size)
            ((img.height : ℤ) - margin - size) alphaMap img.data acc2 row col) acc)
        img.data := rfl

/-! ## C1: the reverse alpha blend -/

/-- C1: for every mask cell whose image coordinate `(x, y)` is in bounds
and whose opacity is at least 0.002, `removeWatermark` sets each of the
pixel's R, G, B channels to the rounded, clamped value of
`(watermarked - alpha*255) / (1 - alpha)` with the opacity clamped to
0.99, and leaves the pixel's alpha byte unchanged. -/
theorem removeWatermark_reverses_blend (img : ImageData) (size margin : Nat)
    (alphaMap : Nat → ℚ) (row col x y : Nat)
    (hrow : row < size) (hcol : col < size)
    (hx : (x : ℤ) = (img.width : ℤ) - margin - size + col)
    (hy : (y : ℤ) = (img.height : ℤ) - margin - size + row)
    (hxw : x < img.width) (hyh : y < img.height)
    (ha : 1/500 ≤ alphaMap (row * size + col))
    (hlen : img.data.length = img.width * img.height * 4) :
    (∀ c, c < 3 →
      readByte (removeWatermark img size margin alphaMap).data
          ((y * img.width + x) * 4 + c) =
        recoverChannel (readByte img.data ((y * img.width + x) * 4 + c))
          (min (alphaMap (row * size + col)) (99/100))) ∧
    readByte (removeWatermark img size margin alphaMap).data
        ((y * img.width + x) * 4 + 3) =
      readByte img.data ((y * img.width + x) * 4 + 3) := by
  have hpx : ((img.width : ℤ) - margin - size) + col = (x : ℤ) := by omega
  have hpy : ((img.height : ℤ) - margin - size) + row = (y : ℤ) := by omega
  have htx : (((img.width : ℤ) - margin - size) + col).toNat = x := by omega
  have hty : (((img.height : ℤ) - margin - size) + row).toNat = y := by omega
  have hcell_len : ∀ (o : List Nat) (r c2 : Nat),
      (processCell img.width img.height size ((img.width : ℤ) - margin - size)
        ((img.height : ℤ) - margin - size) alphaMap img.data o r c2).length =
      o.length := fun o r c2 => processCell_length _ _ _ _ _ _ _ _ _ _
  have hrow_len : ∀ (o : List Nat) (r : Nat), o.length = img.data.length →
      ((List.range size).foldl (fun acc2 c2 =>
        processCell img.width img.height size ((img.width : ℤ) - margin - size)
          ((img.height : ℤ) - margin - size) alphaMap img.data acc2 r c2)
        o).length = img.data.length := by
    intro o r ho
    exact foldl_length_invariant _ img.data.length _ o ho
      (fun o2 c2 ho2 => by rw [hcell_len]; exact ho2)
  constructor
  · intro c hc
    rw [removeWatermark_data]
    have hwrite : ∀ o2 : List Nat, o2.length = img.data.length →
        readByte (processCell img.width img.height size
            ((img.width : ℤ) - margin - size)
            ((img.height : ℤ) - margin - size) alphaMap img.data o2 row col)
          ((y * img.width + x) * 4 + c) =
        recoverChannel (readByte img.data ((y * img.width + x) * 4 + c))
          (min (alphaMap (row * size + col)) (99/100)) := by
      intro o2 ho2
      have hres := processCell_write img.width img.height size
        ((img.width : ℤ) - margin - size) ((img.height : ℤ) - margin - size)
        alphaMap img.data o2 row col (by omega) (not_lt.mpr ha) c hc
        (by rw [htx, hty, ho2, hlen]; exact pixel_byte_lt hxw hyh (by omega))
      rwa [htx, hty] at hres
    apply foldl_readByte_write _ _ _ img.data.length hrow_len _ row img.data rfl
      (List.mem_range.mpr hrow)
    · intro o ho
      apply foldl_readByte_write _ _ _ img.data.length
        (fun o2 c2 ho2 => by rw [hcell_len]; exact ho2) _ col o ho
        (List.mem_range.mpr hcol)
      · exact hwrite
      · intro c2 _
        by_cases hcc : c2 = col
        · subst hcc; right; exact hwrite
        · left
          intro o2 _
          apply processCell_preserve_pixel _ _ _ _ _ _ _ _ _ _ _ _ _ hxw hyh
            (by omega)
          left
          intro hcon
          exact hcc (by omega)
    · intro r _
      by_cases hrr : r = row
      · subst hrr
        right
        intro o ho
        apply foldl_readByte_write _ _ _ img.data.length
          (fun o2 c2 ho2 => by rw [hcell_len]; exact ho2) _ col o ho
          (List.mem_range.mpr hcol)
        · exact hwrite
        · intro c2 _
          by_cases hcc : c2 = col
          · subst hcc; right; exact hwrite
          · left
            intro o2 _
            apply processCell_preserve_pixel _ _ _ _ _ _ _ _ _ _ _ _ _ hxw hyh
              (by omega)
            left
            intro hcon
            exact hcc (by omega)
      · left
        intro o _
        apply foldl_readByte_untouched
        intro c2 _ o2
        apply processCell_preserve_pixel _ _ _ _ _ _ _ _ _ _ _ _ _ hxw hyh
          (by omega)
        left
        intro hcon
        exact hrr (by omega)
  · rw [removeWatermark_data]
    apply foldl_readByte_untouched
    intro r _ o
    apply foldl_readByte_untouched
    intro c2 _ o2
    exact processCell_preserve_pixel _ _ _ _ _ _ _ _ _ _ _ _ 3 hxw hyh
      (by omega) (Or.inr rfl)

/-- Witness for C1 on a 1×1 image with a half-opacity single-cell mask. -/
theorem removeWatermark_reverses_blend_witness :
    ((0 : ℤ) = ((1 : Nat) : ℤ) - 0 - 1 + 0 ∧ (1:ℚ)/500 ≤ 1/2 ∧
      (⟨1, 1, [100, 200, 0, 255]⟩ : ImageData).data.length = 1 * 1 * 4) ∧
    ((∀ c, c < 3 →
      readByte (removeWatermark ⟨1, 1, [100, 200, 0, 255]⟩ 1 0 (fun _ => 1/2)).data
          ((0 * 1 + 0) * 4 + c) =
        recoverChannel (readByte [100, 200, 0, 255] ((0 * 1 + 0) * 4 + c))
          (min ((fun _ : Nat => (1:ℚ)/2) (0 * 1 + 0)) (99/100))) ∧
      readByte (removeWatermark ⟨1, 1, [100, 200, 0, 255]⟩ 1 0 (fun _ => 1/2)).data
          ((0 * 1 + 0) * 4 + 3) =
        readByte [100, 200, 0, 255] ((0 * 1 + 0) * 4 + 3)) :=
  ⟨⟨by decide, by norm_num, by decide⟩,
    removeWatermark_reverses_blend ⟨1, 1, [100, 200, 0, 255]⟩ 1 0 (fun _ => 1/2)
      0 0 0 0 (by decide) (by decide) (by decide) (by decide) (by decide)
      (by decide) (by norm_num) (by decide)⟩

/-! ## C9: untouched pixels -/

/-- C9: every byte of a pixel that lies outside the watermark placement
square, or whose mask cell has opacity below 0.002, is identical to the
input; and a placement pushed fully out of bounds (forced side 48 on a
20-pixel-wide image) returns the buffer unchanged. -/
theorem removeWatermark_untouched_outside (img : ImageData) (size margin : Nat)
    (alphaMap : Nat → ℚ) (x y : Nat) (hxw : x < img.width)
    (hyh : y < img.height)
    (h : ¬ inWatermarkRegion img.width img.height size margin x y ∨
      alphaMap (maskCellIndex img.width img.height size margin x y) < 1/500) :
    (∀ c, c < 4 →
      readByte (removeWatermark img size margin alphaMap).data
          ((y * img.width + x) * 4 + c) =
        readByte img.data ((y * img.width + x) * 4 + c)) ∧
    (∀ (img2 : ImageData) (am : Nat → ℚ), img2.width = 20 →
      removeWatermarkFull img2 (some 48) am = img2) := by
  constructor
  · intro c hc
    rw [removeWatermark_data]
    apply foldl_readByte_untouched
    intro r hr o
    apply foldl_readByte_untouched
    intro c2 hc2 o2
    by_cases hm : ((img.width : ℤ) - margin - size) + c2 = (x : ℤ) ∧
      ((img.height : ℤ) - margin - size) + r = (y : ℤ)
    · rcases h with hreg | halpha
      · exact absurd
          ⟨by omega, by
            have := List.mem_range.mp hc2
            omega, by omega, by
            have := List.mem_range.mp hr
            omega⟩ hreg
      · have hidx : maskCellIndex img.width img.height size margin x y =
            r * size + c2 := by
          unfold maskCellIndex
          have h1 : ((x : ℤ) - ((img.width : ℤ) - margin - size)).toNat = c2 := by
            omega
          have h2 : ((y : ℤ) - ((img.height : ℤ) - margin - size)).toNat = r := by
            omega
          rw [h1, h2]
        rw [hidx] at halpha
        rw [processCell_skip_alpha _ _ _ _ _ _ _ _ _ _ halpha]
    · exact processCell_preserve_pixel _ _ _ _ _ _ _ _ _ _ _ _ _ hxw hyh
        (by omega) (Or.inl hm)
  · intro img2 am h20
    obtain ⟨w2, h2, d2⟩ := img2
    simp only at h20
    show removeWatermark ⟨w2, h2, d2⟩ 48 32 am = ⟨w2, h2, d2⟩
    have hdata : (removeWatermark ⟨w2, h2, d2⟩ 48 32 am).data = d2 := by
      rw [removeWatermark_data]
      apply foldl_id
      intro r hr o
      apply foldl_id
      intro c2 hc2 o2
      apply processCell_skip
      left
      have := List.mem_range.mp hc2
      simp only at *
      omega
    calc removeWatermark ⟨w2, h2, d2⟩ 48 32 am
        = ⟨w2, h2, (removeWatermark ⟨w2, h2, d2⟩ 48 32 am).data⟩ := rfl
      _ = ⟨w2, h2, d2⟩ := by rw [hdata]

/-- Witness for C9: a pixel outside a one-cell placement on a 2×2 image. -/
theorem removeWatermark_untouched_outside_witness :
    ((0 : Nat) < 2 ∧ ¬ inWatermarkRegion 2 2 1 0 0 0) ∧
    ((∀ c, c < 4 →
      readByte (removeWatermark ⟨2, 2, [1, 2, 3, 4, 5, 6, 7, 8, 9, 10, 11, 12,
          13, 14, 15, 16]⟩ 1 0 (fun _ => 1)).data ((0 * 2 + 0) * 4 + c) =
        readByte [1, 2, 3, 4, 5, 6, 7, 8, 9, 10, 11, 12, 13, 14, 15, 16]
          ((0 * 2 + 0) * 4 + c)) ∧
    (∀ (img2 : ImageData) (am : Nat → ℚ), img2.width = 20 →
      removeWatermarkFull img2 (some 48) am = img2)) :=
  ⟨⟨by decide, by decide⟩,
    removeWatermark_untouched_outside
      ⟨2, 2, [1, 2, 3, 4, 5, 6, 7, 8, 9, 10, 11, 12, 13, 14, 15, 16]⟩ 1 0
      (fun _ => 1) 0 0 (by decide) (by decide) (Or.inl (by decide))⟩

/-! ## C10: geometry preservation -/

/-- C10: `removeWatermark` builds its result from a fresh copy of the
input buffer (the embedding is pure, so the input list is never mutated)
and the returned image has the same width, height, and byte count as the
input. -/
theorem removeWatermark_preserves_geometry (img : ImageData)
    (forceSize : Option Nat) (alphaMap : Nat → ℚ) :
    (removeWatermarkFull img forceSize alphaMap).width = img.width ∧
    (removeWatermarkFull img forceSize alphaMap).height = img.height ∧
    (removeWatermarkFull img forceSize alphaMap).data.length =
      img.data.length := by
  have hgen : ∀ size margin : Nat,
      (removeWatermark img size margin alphaMap).width = img.width ∧
      (removeWatermark img size margin alphaMap).height = img.height ∧
      (removeWatermark img size margin alphaMap).data.length =
        img.data.length := by
    intro size margin
    refine ⟨rfl, rfl, ?_⟩
    rw [removeWatermark_data]
    exact foldl_length_invariant _ img.data.length _ img.data rfl
      (fun o r ho => foldl_length_invariant _ _ _ o ho
        (fun o2 c2 ho2 => by rw [processCell_length]; exact ho2))
  cases forceSize with
  | none => exact hgen _ _
  | some s => exact hgen _ _

/-! ## Median-cut invariants -/

theorem foldl_colors_const (step : ColorBox → Nat → ColorBox)
    (hstep : ∀ box c, (step box c).colors = box.colors) :
    ∀ (l : List Nat) (box : ColorBox), (l.foldl step box).colors = box.colors := by
  intro l
  induction l with
  | nil => intro box; rfl
  | cons hd tl ih => intro box; rw [List.foldl_cons, ih, hstep]

theorem createColorBox_colors (l : List Nat) : (createColorBox l).colors = l := by
  unfold createColorBox
  refine foldl_colors_const _ ?_ l _
  intro box c
  rfl

theorem splitColorBox_eq_some {box b1 b2 : ColorBox}
    (h : splitColorBox box = some (b1, b2)) :
    b1.colors.length + b2.colors.length = box.colors.length ∧
    b1.colors.length ≠ 0 ∧ b2.colors.length ≠ 0 := by
  unfold splitColorBox at h
  by_cases h2 : box.colors.length < 2
  · rw [if_pos h2] at h
    exact absurd h (by simp)
  · rw [if_neg h2] at h
    simp only at h
    set sorted := box.colors.insertionSort
      (fun a b => getChannelValue a (getBoxLongestChannel box) ≤
        getChannelValue b (getBoxLongestChannel box)) with hsorted
    by_cases hz : (sorted.take (sorted.length / 2)).length = 0 ∨
      (sorted.drop (sorted.length / 2)).length = 0
    · rw [if_pos hz] at h
      exact absurd h (by simp)
    · rw [if_neg hz] at h
      injection h with h
      injection h with hb1 hb2
      subst hb1
      subst hb2
      push_neg at hz
      have hlen : sorted.length = box.colors.length := by
        rw [hsorted, List.length_insertionSort]
      constructor
      · rw [createColorBox_colors, createColorBox_colors,
          List.length_take, List.length_drop]
        omega
      · rw [createColorBox_colors, createColorBox_colors]
        exact hz

theorem splitLoop_length_le (fuel maxColors : Nat) :
    ∀ boxes : List ColorBox, boxes.length ≤ maxColors →
      (splitLoop fuel maxColors boxes).length ≤ maxColors := by
  induction fuel with
  | zero => intro boxes h; exact h
  | succ fuel ih =>
    intro boxes h
    rw [splitLoop]
    by_cases hlt : boxes.length < maxColors
    · rw [if_pos hlt]
      split
      · exact h
      · rename_i box rest heq
        have hrest : rest.length + 1 = boxes.length := by
          have hs := List.length_insertionSort boxGE boxes
          rw [heq] at hs
          simpa using hs
        split
        · simp only [List.length_append, List.length_cons, List.length_nil]
          omega
        · rename_i b1 b2 hsp
          apply ih
          simp only [List.length_append, List.length_cons, List.length_nil]
          omega
    · rw [if_neg hlt]
      exact h

theorem splitLoop_ne_nil (fuel maxColors : Nat) :
    ∀ boxes : List ColorBox, boxes ≠ [] → splitLoop fuel maxColors boxes ≠ [] := by
  induction fuel with
  | zero => intro boxes h; exact h
  | succ fuel ih =>
    intro boxes h
    rw [splitLoop]
    by_cases hlt : boxes.length < maxColors
    · rw [if_pos hlt]
      split
      · exact h
      · rename_i box rest heq
        split
        · simp
        · rename_i b1 b2 hsp
          apply ih
          simp
    · rw [if_neg hlt]
      exact h

theorem channel_sums_le (l : List Nat) :
    ∀ s : Nat × Nat × Nat,
      ((l.foldl (fun (s : Nat × Nat × Nat) color =>
        (s.1 + ((color >>> 16) &&& 0xff), s.2.1 + ((color >>> 8) &&& 0xff),
          s.2.2 + (color &&& 0xff))) s).1 ≤ s.1 + 255 * l.length ∧
       (l.foldl (fun (s : Nat × Nat × Nat) color =>
        (s.1 + ((color >>> 16) &&& 0xff), s.2.1 + ((color >>> 8) &&& 0xff),
          s.2.2 + (color &&& 0xff))) s).2.1 ≤ s.2.1 + 255 * l.length ∧
       (l.foldl (fun (s : Nat × Nat × Nat) color =>
        (s.1 + ((color >>> 16) &&& 0xff), s.2.1 + ((color >>> 8) &&& 0xff),
          s.2.2 + (color &&& 0xff))) s).2.2 ≤ s.2.2 + 255 * l.length) := by
  induction l with
  | nil => intro s; simp
  | cons hd tl ih =>
    intro s
    rw [List.foldl_cons]
    obtain ⟨ih1, ih2, ih3⟩ := ih _
    have h1 : (hd >>> 16) &&& 0xff ≤ 255 := Nat.and_le_right
    have h2 : (hd >>> 8) &&& 0xff ≤ 255 := Nat.and_le_right
    have h3 : hd &&& 0xff ≤ 255 := Nat.and_le_right
    refine ⟨?_, ?_, ?_⟩
    · calc _ ≤ _ := ih1
        _ ≤ s.1 + 255 * (hd :: tl).length := by
          simp only [List.length_cons]
          omega
    · calc _ ≤ _ := ih2
        _ ≤ s.2.1 + 255 * (hd :: tl).length := by
          simp only [List.length_cons]
          omega
    · calc _ ≤ _ := ih3
        _ ≤ s.2.2 + 255 * (hd :: tl).length := by
          simp only [List.length_cons]
          omega

theorem mean_byte_le (sum count : Nat) (hc : 0 < count) (hs : sum ≤ 255 * count) :
    (jsRound ((sum : ℚ) / count)).toNat ≤ 255 := by
  rw [Int.toNat_le]
  apply jsRound_le_natCast
  have hcq : (0 : ℚ) < count := by exact_mod_cast hc
  rw [div_le_iff₀ hcq]
  exact_mod_cast hs

theorem pack_mean_lt (s1 s2 s3 count : Nat) (hc : 0 < count)
    (h1 : s1 ≤ 255 * count) (h2 : s2 ≤ 255 * count) (h3 : s3 ≤ 255 * count) :
    ((jsRound ((s1 : ℚ) / count)).toNat <<< 16) |||
      ((jsRound ((s2 : ℚ) / count)).toNat <<< 8) |||
      (jsRound ((s3 : ℚ) / count)).toNat < 2 ^ 24 := by
  have hr := mean_byte_le s1 count hc h1
  have hg := mean_byte_le s2 count hc h2
  have hb := mean_byte_le s3 count hc h3
  apply Nat.or_lt_two_pow
  · apply Nat.or_lt_two_pow
    · rw [Nat.shiftLeft_eq]
      calc _ ≤ 255 * 2 ^ 16 := Nat.mul_le_mul_right _ hr
        _ < 2 ^ 24 := by norm_num
    · rw [Nat.shiftLeft_eq]
      calc _ ≤ 255 * 2 ^ 8 := Nat.mul_le_mul_right _ hg
        _ < 2 ^ 24 := by norm_num
  · calc _ ≤ 255 := hb
      _ < 2 ^ 24 := by norm_num

theorem boxMeanColor_lt_two_pow (box : ColorBox) : boxMeanColor box < 2 ^ 24 := by
  unfold boxMeanColor
  obtain ⟨hs1, hs2, hs3⟩ := channel_sums_le box.colors (0, 0, 0)
  simp only at hs1 hs2 hs3
  have hcl : box.colors.length ≤ max 1 box.colors.length := le_max_right _ _
  refine pack_mean_lt _ _ _ _ (by omega) (by omega) (by omega) (by omega)

theorem buildPalette_mem_lt {colors : List Nat} {maxColors c : Nat}
    (hc : c ∈ buildPalette colors maxColors) : c < 2 ^ 24 := by
  unfold buildPalette at hc
  by_cases hz : colors.length = 0
  · rw [if_pos hz] at hc
    exact absurd hc (by simp)
  · rw [if_neg hz] at hc
    obtain ⟨box, _, rfl⟩ := List.mem_map.mp hc
    exact boxMeanColor_lt_two_pow box

/-! ## C4: palette size and entries -/

/-- C4 counterexample: two identical sampled colours with `maxColors = 2`
produce the palette `[1, 1]`, whose entries are not distinct. -/
theorem buildPalette_duplicate_entries :
    2 ≤ 2 ∧ ([1, 1] : List Nat) ≠ [] ∧ buildPalette [1, 1] 2 = [1, 1] ∧
    ¬ (buildPalette [1, 1] 2).Nodup :=
  ⟨by decide, by decide, by decide, by decide⟩

/-- C4 (amended): for every `maxColors ≥ 2` and non-empty sample list the
palette has at most `maxColors` entries, is non-empty, and every entry is
a 24-bit RGB value; entries need not be pairwise distinct. -/
theorem buildPalette_size_bound (colors : List Nat) (maxColors : Nat)
    (hmc : 2 ≤ maxColors) (hne : colors ≠ []) :
    (buildPalette colors maxColors).length ≤ maxColors ∧
    buildPalette colors maxColors ≠ [] ∧
    ∀ c ∈ buildPalette colors maxColors, c < 2 ^ 24 := by
  refine ⟨?_, ?_, fun c hc => buildPalette_mem_lt hc⟩
  · unfold buildPalette
    rw [if_neg (by simpa using hne)]
    rw [List.length_map]
    exact splitLoop_length_le maxColors maxColors [createColorBox colors]
      (by simp only [List.length_cons, List.length_nil]; omega)
  · unfold buildPalette
    rw [if_neg (by simpa using hne)]
    have := splitLoop_ne_nil maxColors maxColors [createColorBox colors]
      (by simp)
    simpa using this

/-- Witness for C4 on a singleton sample. -/
theorem buildPalette_size_bound_witness :
    (2 ≤ 2 ∧ ([5] : List Nat) ≠ []) ∧
    ((buildPalette [5] 2).length ≤ 2 ∧ buildPalette [5] 2 ≠ [] ∧
      ∀ c ∈ buildPalette [5] 2, c < 2 ^ 24) :=
  ⟨⟨by decide, by decide⟩, buildPalette_size_bound [5] 2 (by decide) (by decide)⟩

/-! ## The palette scan: first strict minimum -/

theorem colorDist_nonneg (c p : Nat) : 0 ≤ colorDist c p := by
  simp only [colorDist]
  have h1 := mul_self_nonneg
    ((((c >>> 16) &&& 0xff : Nat) : ℤ) - (((p >>> 16) &&& 0xff : Nat) : ℤ))
  have h2 := mul_self_nonneg
    ((((c >>> 8) &&& 0xff : Nat) : ℤ) - (((p >>> 8) &&& 0xff : Nat) : ℤ))
  have h3 := mul_self_nonneg
    (((c &&& 0xff : Nat) : ℤ) - ((p &&& 0xff : Nat) : ℤ))
  linarith

theorem colorDist_self (c : Nat) : colorDist c c = 0 := by
  unfold colorDist
  ring

theorem colorDist_eq_zero {c p : Nat} (h : colorDist c p = 0) :
    (c >>> 16) &&& 0xff = (p >>> 16) &&& 0xff ∧
    (c >>> 8) &&& 0xff = (p >>> 8) &&& 0xff ∧
    c &&& 0xff = p &&& 0xff := by
  unfold colorDist at h
  simp only at h
  have h1 : ((((c >>> 16) &&& 0xff : Nat) : ℤ) - (((p >>> 16) &&& 0xff : Nat) : ℤ)) = 0 := by
    nlinarith [sq_nonneg ((((c >>> 16) &&& 0xff : Nat) : ℤ) - (((p >>> 16) &&& 0xff : Nat) : ℤ)),
      sq_nonneg ((((c >>> 8) &&& 0xff : Nat) : ℤ) - (((p >>> 8) &&& 0xff : Nat) : ℤ)),
      sq_nonneg (((c &&& 0xff : Nat) : ℤ) - ((p &&& 0xff : Nat) : ℤ))]
  have h2 : ((((c >>> 8) &&& 0xff : Nat) : ℤ) - (((p >>> 8) &&& 0xff : Nat) : ℤ)) = 0 := by
    nlinarith [sq_nonneg ((((c >>> 16) &&& 0xff : Nat) : ℤ) - (((p >>> 16) &&& 0xff : Nat) : ℤ)),
      sq_nonneg ((((c >>> 8) &&& 0xff : Nat) : ℤ) - (((p >>> 8) &&& 0xff : Nat) : ℤ)),
      sq_nonneg (((c &&& 0xff : Nat) : ℤ) - ((p &&& 0xff : Nat) : ℤ))]
  have h3 : (((c &&& 0xff : Nat) : ℤ) - ((p &&& 0xff : Nat) : ℤ)) = 0 := by
    nlinarith [sq_nonneg ((((c >>> 16) &&& 0xff : Nat) : ℤ) - (((p >>> 16) &&& 0xff : Nat) : ℤ)),
      sq_nonneg ((((c >>> 8) &&& 0xff : Nat) : ℤ) - (((p >>> 8) &&& 0xff : Nat) : ℤ)),
      sq_nonneg (((c &&& 0xff : Nat) : ℤ) - ((p &&& 0xff : Nat) : ℤ))]
  refine ⟨?_, ?_, ?_⟩
  · exact_mod_cast sub_eq_zero.mp h1
  · exact_mod_cast sub_eq_zero.mp h2
  · exact_mod_cast sub_eq_zero.mp h3

/-- Channels of values below 2^24 determine the value. -/
theorem channels_inj {c p : Nat} (hc : c < 2 ^ 24) (hp : p < 2 ^ 24)
    (hr : (c >>> 16) &&& 0xff = (p >>> 16) &&& 0xff)
    (hg : (c >>> 8) &&& 0xff = (p >>> 8) &&& 0xff)
    (hb : c &&& 0xff = p &&& 0xff) : c = p := by
  have e16 : ∀ x : Nat, (x >>> 16) &&& 0xff = x / 2 ^ 16 % 2 ^ 8 := by
    intro x
    rw [Nat.shiftRight_eq_div_pow, show (0xff : Nat) = 2 ^ 8 - 1 by norm_num,
      Nat.and_pow_two_sub_one_eq_mod]
  have e8 : ∀ x : Nat, (x >>> 8) &&& 0xff = x / 2 ^ 8 % 2 ^ 8 := by
    intro x
    rw [Nat.shiftRight_eq_div_pow, show (0xff : Nat) = 2 ^ 8 - 1 by norm_num,
      Nat.and_pow_two_sub_one_eq_mod]
  have e0 : ∀ x : Nat, x &&& 0xff = x % 2 ^ 8 := by
    intro x
    rw [show (0xff : Nat) = 2 ^ 8 - 1 by norm_num,
      Nat.and_pow_two_sub_one_eq_mod]
  rw [e16, e16] at hr
  rw [e8, e8] at hg
  rw [e0, e0] at hb
  omega

/-- The scan fold keeps the first strict minimum: the invariant threads
the elements strictly beaten by the current best (`l1`, earlier in the
list) and the already-processed later elements (`l2p`). -/
theorem scanFold_spec (c : Nat) :
    ∀ (tl l1 l2p : List Nat) (p : Nat),
      (∀ q ∈ l1, colorDist c p < colorDist c q) →
      (∀ q ∈ l2p, colorDist c p ≤ colorDist c q) →
      ∃ l1' p' l2',
        l1 ++ p :: (l2p ++ tl) = l1' ++ p' :: l2' ∧
        (tl.foldl (scanStep c) (p, some (colorDist c p))).1 = p' ∧
        (∀ q ∈ l1', colorDist c p' < colorDist c q) ∧
        (∀ q ∈ l2', colorDist c p' ≤ colorDist c q) := by
  intro tl
  induction tl with
  | nil =>
    intro l1 l2p p h1 h2
    exact ⟨l1, p, l2p, by simp, rfl, h1, by simpa using h2⟩
  | cons q rest ih =>
    intro l1 l2p p h1 h2
    rw [List.foldl_cons]
    by_cases hlt : colorDist c q < colorDist c p
    · have hstep : scanStep c (p, some (colorDist c p)) q =
          (q, some (colorDist c q)) := by
        unfold scanStep
        simp [hlt]
      rw [hstep]
      obtain ⟨l1', p', l2', heq, hres, h1', h2'⟩ :=
        ih (l1 ++ p :: l2p) [] q
          (by
            intro r hr
            rcases List.mem_append.mp hr with hr | hr
            · exact lt_trans hlt (h1 r hr)
            · rcases List.mem_cons.mp hr with rfl | hr
              · exact hlt
              · exact lt_of_lt_of_le hlt (h2 r hr))
          (by simp)
      refine ⟨l1', p', l2', ?_, hres, h1', h2'⟩
      rw [← heq]
      simp
    · have hstep : scanStep c (p, some (colorDist c p)) q =
          (p, some (colorDist c p)) := by
        unfold scanStep
        simp [hlt]
      rw [hstep]
      obtain ⟨l1', p', l2', heq, hres, h1', h2'⟩ :=
        ih l1 (l2p ++ [q]) p h1
          (by
            intro r hr
            rcases List.mem_append.mp hr with hr | hr
            · exact h2 r hr
            · rcases List.mem_cons.mp hr with rfl | hr
              · exact not_lt.mp hlt
              · simp at hr)
      refine ⟨l1', p', l2', ?_, hres, h1', h2'⟩
      rw [← heq]
      simp

/-- `scanNearest` returns the palette entry of minimal squared distance,
with ties broken in favour of the first one encountered. -/
theorem scanNearest_spec (palette : List Nat) (c : Nat) (hne : palette ≠ []) :
    ∃ l1 p l2, palette = l1 ++ p :: l2 ∧ scanNearest palette c = p ∧
      (∀ q ∈ l1, colorDist c p < colorDist c q) ∧
      (∀ q ∈ l2, colorDist c p ≤ colorDist c q) := by
  obtain ⟨hd, tl, rfl⟩ := List.exists_cons_of_ne_nil hne
  unfold scanNearest
  rw [List.foldl_cons]
  have hstep : scanStep c ((hd :: tl).headD 0, none) hd =
      (hd, some (colorDist c hd)) := rfl
  rw [hstep]
  obtain ⟨l1, p, l2, heq, hres, h1, h2⟩ :=
    scanFold_spec c tl [] [] hd (by simp) (by simp)
  exact ⟨l1, p, l2, by simpa using heq, hres, h1, h2⟩

/-! ## C5: idempotence of quantization -/

set_option maxRecDepth 10000 in
/-- C5 counterexample: on the three-pixel buffer with colours
`[0, 0, 9]`, quantizing with `maxColors = 2`, `sampleSize = 3` yields the
colours `[0, 0, 5]`, and a second pass changes them again to `[0, 0, 3]`,
so a second `quantizeImageData` is not the identity on an
already-quantized buffer. -/
theorem quantize_not_idempotent :
    quantizeImageData (quantizeImageData
        ⟨3, 1, [0, 0, 0, 255, 0, 0, 0, 255, 0, 0, 9, 255]⟩ 2 3) 2 3 ≠
      quantizeImageData ⟨3, 1, [0, 0, 0, 255, 0, 0, 0, 255, 0, 0, 9, 255]⟩ 2 3 := by
  decide

/-- C5 (amended): the remap scan maps every colour that is a member of
the built palette to itself (so a second pass only changes pixels whose
first-pass colour is absent from the second-pass palette; full
idempotence of `quantizeImageData` fails). -/
theorem scanNearest_palette_member (colors : List Nat) (maxColors : Nat)
    (c : Nat) (hc : c ∈ buildPalette colors maxColors) :
    scanNearest (buildPalette colors maxColors) c = c := by
  have hne : buildPalette colors maxColors ≠ [] := List.ne_nil_of_mem hc
  obtain ⟨l1, p, l2, heq, hres, h1, h2⟩ :=
    scanNearest_spec (buildPalette colors maxColors) c hne
  rw [hres]
  have hmem : c ∈ l1 ++ p :: l2 := heq ▸ hc
  have hple : colorDist c p ≤ 0 := by
    rcases List.mem_append.mp hmem with hm | hm
    · have := h1 c hm
      rw [colorDist_self] at this
      linarith
    · rcases List.mem_cons.mp hm with rfl | hm
      · rw [colorDist_self]
      · have := h2 c hm
        rw [colorDist_self] at this
        linarith
  have h0 : colorDist c p = 0 := le_antisymm hple (colorDist_nonneg c p)
  obtain ⟨hr, hg, hb⟩ := colorDist_eq_zero h0
  have hc24 : c < 2 ^ 24 := buildPalette_mem_lt hc
  have hp24 : p < 2 ^ 24 :=
    buildPalette_mem_lt (heq ▸ (by simp : p ∈ l1 ++ p :: l2))
  exact (channels_inj hc24 hp24 hr hg hb).symm

/-- Witness for the amended C5 on a singleton palette. -/
theorem scanNearest_palette_member_witness :
    5 ∈ buildPalette [5] 2 ∧ scanNearest (buildPalette [5] 2) 5 = 5 :=
  ⟨by decide, scanNearest_palette_member [5] 2 5 (by decide)⟩

/-! ## The remap loop -/

theorem lookup_sound {l : List (Nat × Nat)} {a b : Nat}
    (h : List.lookup a l = some b) : (a, b) ∈ l := by
  induction l with
  | nil => simp at h
  | cons hd tl ih =>
    obtain ⟨k, v⟩ := hd
    by_cases hak : a = k
    · subst hak
      simp only [List.lookup, beq_self_eq_true] at h
      injection h with h
      subst h
      exact List.mem_cons_self _ _
    · have hbeq : (a == k) = false := beq_eq_false_iff_ne.mpr hak
      simp only [List.lookup, hbeq] at h
      exact List.mem_cons_of_mem _ (ih h)

theorem writeColor_length (d : List Nat) (offset m : Nat) :
    (writeColor d offset m).length = d.length := by
  unfold writeColor
  simp

theorem readByte_writeColor_ne (d : List Nat) (offset m i : Nat)
    (h1 : i ≠ offset) (h2 : i ≠ offset + 1) (h3 : i ≠ offset + 2) :
    readByte (writeColor d offset m) i = readByte d i := by
  unfold writeColor
  rw [readByte_set_ne _ _ h3, readByte_set_ne _ _ h2, readByte_set_ne _ _ h1]

theorem readByte_writeColor (d : List Nat) (offset m : Nat)
    (hlen : offset + 2 < d.length) :
    readByte (writeColor d offset m) offset = (m >>> 16) &&& 0xff ∧
    readByte (writeColor d offset m) (offset + 1) = (m >>> 8) &&& 0xff ∧
    readByte (writeColor d offset m) (offset + 2) = m &&& 0xff := by
  unfold writeColor
  refine ⟨?_, ?_, ?_⟩
  · rw [readByte_set_ne _ _ (by omega), readByte_set_ne _ _ (by omega)]
    exact readByte_set_self _ _ (by omega)
  · rw [readByte_set_ne _ _ (by omega)]
    exact readByte_set_self _ _ (by simp; omega)
  · exact readByte_set_self _ _ (by simp; omega)

/-- The invariant of the remap loop after processing the first `k`
pixels: lengths are preserved, bytes from pixel `k` on are untouched, the
memo cache agrees with the linear scan, and every processed pixel is
either transparent and untouched or rewritten to the channels of its
nearest palette colour. -/
theorem remapLoop_invariant (palette : List Nat) (d0 : List Nat) :
    ∀ k : Nat, k ≤ d0.length / 4 →
      (((List.range k).foldl (remapPixel palette) (d0, [])).1.length =
        d0.length) ∧
      (∀ m, k * 4 ≤ m →
        readByte ((List.range k).foldl (remapPixel palette) (d0, [])).1 m =
          readByte d0 m) ∧
      (∀ key val,
        (key, val) ∈ ((List.range k).foldl (remapPixel palette) (d0, [])).2 →
        val = scanNearest palette key) ∧
      (∀ i, i < k →
        (readByte d0 (i * 4 + 3) = 0 →
          ∀ c, c < 4 →
            readByte ((List.range k).foldl (remapPixel palette) (d0, [])).1
                (i * 4 + c) =
              readByte d0 (i * 4 + c)) ∧
        (readByte d0 (i * 4 + 3) ≠ 0 →
          readByte ((List.range k).foldl (remapPixel palette) (d0, [])).1
              (i * 4) =
            ((scanNearest palette (pixelColor d0 (i * 4))) >>> 16) &&& 0xff ∧
          readByte ((List.range k).foldl (remapPixel palette) (d0, [])).1
              (i * 4 + 1) =
            ((scanNearest palette (pixelColor d0 (i * 4))) >>> 8) &&& 0xff ∧
          readByte ((List.range k).foldl (remapPixel palette) (d0, [])).1
              (i * 4 + 2) =
            (scanNearest palette (pixelColor d0 (i * 4))) &&& 0xff ∧
          readByte ((List.range k).foldl (remapPixel palette) (d0, [])).1
              (i * 4 + 3) =
            readByte d0 (i * 4 + 3))) := by
  intro k
  induction k with
  | zero =>
    intro _
    refine ⟨rfl, fun m _ => rfl, by simp, by omega⟩
  | succ k ih =>
    intro hk1
    obtain ⟨ihlen, ihsuf, ihcache, ihpix⟩ := ih (by omega)
    rw [List.range_succ, List.foldl_append, List.foldl_cons, List.foldl_nil]
    set st := (List.range k).foldl (remapPixel palette) (d0, []) with hst
    have hread3 : readByte st.1 (k * 4 + 3) = readByte d0 (k * 4 + 3) :=
      ihsuf _ (by omega)
    have hreadpix : pixelColor st.1 (k * 4) = pixelColor d0 (k * 4) := by
      unfold pixelColor
      rw [ihsuf _ (by omega), ihsuf _ (by omega), ihsuf _ (by omega)]
    have hoff2 : k * 4 + 2 < d0.length := by
      have h4 : (d0.length / 4) * 4 ≤ d0.length := Nat.div_mul_le_self _ _
      omega
    by_cases hz : readByte st.1 (k * 4 + 3) = 0
    · have hstep : remapPixel palette st k = st := by
        unfold remapPixel
        simp only
        rw [if_pos hz]
      rw [hstep]
      refine ⟨ihlen, fun m hm => ihsuf m (by omega), ihcache, ?_⟩
      intro i hi
      by_cases hik : i < k
      · exact ihpix i hik
      · have hik2 : i = k := by omega
        subst hik2
        constructor
        · intro _ c hc
          exact ihsuf _ (by omega)
        · intro hnz
          exact absurd (hread3 ▸ hz) hnz
    · have hoffd : k * 4 + 2 < st.1.length := by omega
      have hwch := readByte_writeColor st.1 (k * 4)
        (scanNearest palette (pixelColor d0 (k * 4))) hoffd
      have hlen2 : (writeColor st.1 (k * 4)
          (scanNearest palette (pixelColor d0 (k * 4)))).length = d0.length := by
        rw [writeColor_length]
        exact ihlen
      have hsuf2 : ∀ m, (k + 1) * 4 ≤ m →
          readByte (writeColor st.1 (k * 4)
            (scanNearest palette (pixelColor d0 (k * 4)))) m =
          readByte d0 m := by
        intro m hm
        rw [readByte_writeColor_ne _ _ _ _ (by omega) (by omega) (by omega)]
        exact ihsuf m (by omega)
      have hpix2 : ∀ i, i < k + 1 →
          (readByte d0 (i * 4 + 3) = 0 →
            ∀ c, c < 4 →
              readByte (writeColor st.1 (k * 4)
                  (scanNearest palette (pixelColor d0 (k * 4)))) (i * 4 + c) =
                readByte d0 (i * 4 + c)) ∧
          (readByte d0 (i * 4 + 3) ≠ 0 →
            readByte (writeColor st.1 (k * 4)
                (scanNearest palette (pixelColor d0 (k * 4)))) (i * 4) =
              ((scanNearest palette (pixelColor d0 (i * 4))) >>> 16) &&& 0xff ∧
            readByte (writeColor st.1 (k * 4)
                (scanNearest palette (pixelColor d0 (k * 4)))) (i * 4 + 1) =
              ((scanNearest palette (pixelColor d0 (i * 4))) >>> 8) &&& 0xff ∧
            readByte (writeColor st.1 (k * 4)
                (scanNearest palette (pixelColor d0 (k * 4)))) (i * 4 + 2) =
              (scanNearest palette (pixelColor d0 (i * 4))) &&& 0xff ∧
            readByte (writeColor st.1 (k * 4)
                (scanNearest palette (pixelColor d0 (k * 4)))) (i * 4 + 3) =
              readByte d0 (i * 4 + 3)) := by
        intro i hi
        by_cases hik : i < k
        · obtain ⟨ht, hn⟩ := ihpix i hik
          constructor
          · intro hz0 c hc
            rw [readByte_writeColor_ne _ _ _ _ (by omega) (by omega) (by omega)]
            exact ht hz0 c hc
          · intro hnz
            obtain ⟨g0, g1, g2, g3⟩ := hn hnz
            refine ⟨?_, ?_, ?_, ?_⟩
            · rw [readByte_writeColor_ne _ _ _ _ (by omega) (by omega)
                (by omega)]
              exact g0
            · rw [readByte_writeColor_ne _ _ _ _ (by omega) (by omega)
                (by omega)]
              exact g1
            · rw [readByte_writeColor_ne _ _ _ _ (by omega) (by omega)
                (by omega)]
              exact g2
            · rw [readByte_writeColor_ne _ _ _ _ (by omega) (by omega)
                (by omega)]
              exact g3
        · have hik2 : i = k := by omega
          subst hik2
          constructor
          · intro hz0
            exact absurd (hread3.trans hz0) hz
          · intro _
            refine ⟨hwch.1, hwch.2.1, hwch.2.2, ?_⟩
            rw [readByte_writeColor_ne _ _ _ _ (by omega) (by omega) (by omega)]
            exact hread3
      cases hlk : List.lookup (pixelColor st.1 (k * 4)) st.2 with
      | some m =>
        have hm : m = scanNearest palette (pixelColor d0 (k * 4)) := by
          have := ihcache _ _ (lookup_sound hlk)
          rw [this, hreadpix]
        have hstep : remapPixel palette st k =
            (writeColor st.1 (k * 4)
              (scanNearest palette (pixelColor d0 (k * 4))), st.2) := by
          unfold remapPixel
          simp only
          rw [if_neg hz, hlk]
          simp only
          rw [hm]
        rw [hstep]
        exact ⟨hlen2, hsuf2, ihcache, hpix2⟩
      | none =>
        have hstep : remapPixel palette st k =
            (writeColor st.1 (k * 4)
              (scanNearest palette (pixelColor d0 (k * 4))),
              (pixelColor d0 (k * 4),
                scanNearest palette (pixelColor d0 (k * 4))) :: st.2) := by
          unfold remapPixel
          simp only
          rw [if_neg hz, hlk]
          simp only
          rw [hreadpix]
        rw [hstep]
        refine ⟨hlen2, hsuf2, ?_, hpix2⟩
        intro key val hkv
        rcases List.mem_cons.mp hkv with hkv | hkv
        · injection hkv with h1 h2
          subst h1
          subst h2
          rfl
        · exact ihcache _ _ hkv

/-! ## C6: nearest-palette remapping -/

/-- C6: when the built palette is non-empty, every fully-transparent pixel
is left byte-identical, and every other pixel is rewritten to the palette
colour of minimal squared Euclidean RGB distance, ties resolved in favour
of the entry encountered first in the linear scan (all entries before the
winner are strictly farther, all entries after are no closer); the alpha
byte is preserved. -/
theorem quantize_remap_nearest (img : ImageData) (maxColors sampleSize : Nat)
    (hpal : paletteOf img maxColors sampleSize ≠ []) :
    ∀ i, i < img.data.length / 4 →
      (readByte img.data (i * 4 + 3) = 0 →
        ∀ c, c < 4 →
          readByte (quantizeImageData img maxColors sampleSize).data
              (i * 4 + c) =
            readByte img.data (i * 4 + c)) ∧
      (readByte img.data (i * 4 + 3) ≠ 0 →
        ∃ l1 p l2, paletteOf img maxColors sampleSize = l1 ++ p :: l2 ∧
          (∀ q ∈ l1, colorDist (pixelColor img.data (i * 4)) p <
            colorDist (pixelColor img.data (i * 4)) q) ∧
          (∀ q ∈ l2, colorDist (pixelColor img.data (i * 4)) p ≤
            colorDist (pixelColor img.data (i * 4)) q) ∧
          readByte (quantizeImageData img maxColors sampleSize).data (i * 4) =
            (p >>> 16) &&& 0xff ∧
          readByte (quantizeImageData img maxColors sampleSize).data
              (i * 4 + 1) = (p >>> 8) &&& 0xff ∧
          readByte (quantizeImageData img maxColors sampleSize).data
              (i * 4 + 2) = p &&& 0xff ∧
          readByte (quantizeImageData img maxColors sampleSize).data
              (i * 4 + 3) = readByte img.data (i * 4 + 3)) := by
  intro i hi
  have hq : (quantizeImageData img maxColors sampleSize).data =
      ((List.range (img.data.length / 4)).foldl
        (remapPixel (paletteOf img maxColors sampleSize))
        (img.data, [])).1 := by
    unfold quantizeImageData
    rw [if_neg hpal]
  obtain ⟨hlen, hsuf, hcache, hpix⟩ :=
    remapLoop_invariant (paletteOf img maxColors sampleSize) img.data
      (img.data.length / 4) le_rfl
  obtain ⟨htrans, hcol⟩ := hpix i hi
  constructor
  · intro hz c hc
    rw [hq]
    exact htrans hz c hc
  · intro hz
    obtain ⟨l1, p, l2, heq, hres, h1, h2⟩ :=
      scanNearest_spec (paletteOf img maxColors sampleSize)
        (pixelColor img.data (i * 4)) hpal
    obtain ⟨hb0, hb1, hb2, hb3⟩ := hcol hz
    refine ⟨l1, p, l2, heq, h1, h2, ?_, ?_, ?_, ?_⟩
    · rw [hq, hb0, hres]
    · rw [hq, hb1, hres]
    · rw [hq, hb2, hres]
    · rw [hq]
      exact hb3

/-- Witness for C6 on a two-pixel buffer: one opaque pixel remapped to the
singleton palette, one fully transparent pixel left alone. -/
theorem quantize_remap_nearest_witness :
    (paletteOf ⟨2, 1, [10, 20, 30, 255, 7, 7, 7, 0]⟩ 8 2 ≠ [] ∧
      (0 : Nat) < [10, 20, 30, 255, 7, 7, 7, 0].length / 4) ∧
    ((readByte [10, 20, 30, 255, 7, 7, 7, 0] (0 * 4 + 3) = 0 →
        ∀ c, c < 4 →
          readByte (quantizeImageData ⟨2, 1, [10, 20, 30, 255, 7, 7, 7, 0]⟩
              8 2).data (0 * 4 + c) =
            readByte [10, 20, 30, 255, 7, 7, 7, 0] (0 * 4 + c)) ∧
      (readByte [10, 20, 30, 255, 7, 7, 7, 0] (0 * 4 + 3) ≠ 0 →
        ∃ l1 p l2,
          paletteOf ⟨2, 1, [10, 20, 30, 255, 7, 7, 7, 0]⟩ 8 2 =
            l1 ++ p :: l2 ∧
          (∀ q ∈ l1,
            colorDist (pixelColor [10, 20, 30, 255, 7, 7, 7, 0] (0 * 4)) p <
              colorDist (pixelColor [10, 20, 30, 255, 7, 7, 7, 0] (0 * 4)) q) ∧
          (∀ q ∈ l2,
            colorDist (pixelColor [10, 20, 30, 255, 7, 7, 7, 0] (0 * 4)) p ≤
              colorDist (pixelColor [10, 20, 30, 255, 7, 7, 7, 0] (0 * 4)) q) ∧
          readByte (quantizeImageData ⟨2, 1, [10, 20, 30, 255, 7, 7, 7, 0]⟩
              8 2).data (0 * 4) = (p >>> 16) &&& 0xff ∧
          readByte (quantizeImageData ⟨2, 1, [10, 20, 30, 255, 7, 7, 7, 0]⟩
              8 2).data (0 * 4 + 1) = (p >>> 8) &&& 0xff ∧
          readByte (quantizeImageData ⟨2, 1, [10, 20, 30, 255, 7, 7, 7, 0]⟩
              8 2).data (0 * 4 + 2) = p &&& 0xff ∧
          readByte (quantizeImageData ⟨2, 1, [10, 20, 30, 255, 7, 7, 7, 0]⟩
              8 2).data (0 * 4 + 3) =
            readByte [10, 20, 30, 255, 7, 7, 7, 0] (0 * 4 + 3))) :=
  ⟨⟨by decide, by decide⟩,
    quantize_remap_nearest ⟨2, 1, [10, 20, 30, 255, 7, 7, 7, 0]⟩ 8 2
      (by decide) 0 (by decide)⟩

/-! ## C8: unsupported fixed format -/

/-- C8: in fixed-format mode, when the backend does not support the
resolved output type, `compressImage` fails with the unsupported-format
error; the theorem holds for every environment, in particular for every
encoder, so no encoding result is consulted before the failure. -/
theorem compressImage_unsupported_format (file : FileInfo)
    (opts : CompressOptions) (env : CompressEnv)
    (hfixed : opts.outputFormat ≠ "auto")
    (hunsup : env.supports
      (resolveOutputType file.fileType opts.outputFormat) = false) :
    compressImage file opts env = .error .unsupportedOutput := by
  unfold compressImage
  rw [if_pos hfixed, if_pos hunsup]

/-- Witness for C8: a fixed PNG request against a backend that supports
nothing. -/
theorem compressImage_unsupported_format_witness :
    (pngFixedOpts.outputFormat ≠ "auto" ∧
      noneEnv.supports
        (resolveOutputType smallFile.fileType pngFixedOpts.outputFormat) =
        false) ∧
    compressImage smallFile pngFixedOpts noneEnv = .error .unsupportedOutput :=
  ⟨⟨by decide, rfl⟩,
    compressImage_unsupported_format smallFile pngFixedOpts noneEnv
      (by decide) rfl⟩

/-! ## C7: the keep-original fallback -/

/-- C7 counterexample: a fixed-format call with `keepOriginalIfLarger`
set, dimensions unchanged by resize, and a winning (single) candidate of
100 bytes against a 50-byte original still returns the encoded candidate
with `usedOriginal` unset — the fallback never runs in fixed-format
mode. -/
theorem compressImage_fixed_ignores_fallback :
    pngFixedOpts.keepOriginalIfLarger.getD true = true ∧
    resolveTargetSize smallFile.width smallFile.height pngFixedOpts.maxWidth
      pngFixedOpts.maxHeight = (smallFile.width, smallFile.height) ∧
    (∀ k t q, bigEnv.encSize k t q = 100) ∧
    smallFile.fileSize ≤ 100 ∧
    compressImage smallFile pngFixedOpts bigEnv =
      .ok ⟨false, 100, "image/png", 10, 10, 10, 10, false, false⟩ :=
  ⟨rfl, by decide, fun _ _ _ => rfl, by decide, rfl⟩

/-- C7 (amended): in auto-format mode, when `keepOriginalIfLarger` is in
force, the resize step left the dimensions unchanged, the original file is
non-empty, and the winning candidate's encoded size is not below the
original byte size, `compressImage` returns the original bytes with
`usedOriginal` set and a note. -/
theorem compressImage_keeps_original (file : FileInfo) (opts : CompressOptions)
    (env : CompressEnv) (best : (String × Bool) × Nat)
    (hauto : opts.outputFormat = "auto")
    (hkeep : opts.keepOriginalIfLarger.getD true = true)
    (hdim : resolveTargetSize file.width file.height opts.maxWidth
      opts.maxHeight = (file.width, file.height))
    (hsize : 0 < file.fileSize)
    (hbest : pickBest opts env (autoCandidates file env
      (hasAlphaOf file opts env) (canQuantizeOf file opts env)) = some best)
    (hge : file.fileSize ≤ best.2) :
    compressImage file opts env =
      .ok ⟨true, file.fileSize,
        (if file.fileType = "" then best.1.1 else file.fileType),
        file.width, file.height, file.width, file.height, true, true⟩ := by
  unfold compressImage
  rw [if_neg (show ¬ (opts.outputFormat ≠ "auto") by simp [hauto]), hdim]
  simp only [hbest]
  rw [if_pos ⟨hkeep, trivial, trivial, hsize, hge⟩]

/-- Witness for C7 on an opaque JPEG source in auto mode whose candidates
all encode to 100 bytes against a 50-byte original. -/
theorem compressImage_keeps_original_witness :
    (autoOpts.outputFormat = "auto" ∧
      autoOpts.keepOriginalIfLarger.getD true = true ∧
      resolveTargetSize smallJpegFile.width smallJpegFile.height
        autoOpts.maxWidth autoOpts.maxHeight =
        (smallJpegFile.width, smallJpegFile.height) ∧
      0 < smallJpegFile.fileSize ∧
      pickBest autoOpts opaqueEnv (autoCandidates smallJpegFile opaqueEnv
        (hasAlphaOf smallJpegFile autoOpts opaqueEnv)
        (canQuantizeOf smallJpegFile autoOpts opaqueEnv)) =
        some (("image/jpeg", false), 100) ∧
      smallJpegFile.fileSize ≤ 100) ∧
    compressImage smallJpegFile autoOpts opaqueEnv =
      .ok ⟨true, smallJpegFile.fileSize,
        (if smallJpegFile.fileType = "" then "image/jpeg"
          else smallJpegFile.fileType),
        smallJpegFile.width, smallJpegFile.height, smallJpegFile.width,
        smallJpegFile.height, true, true⟩ :=
  ⟨⟨rfl, rfl, by decide, by decide, by decide, by decide⟩,
    compressImage_keeps_original smallJpegFile autoOpts opaqueEnv
      (("image/jpeg", false), 100) rfl rfl (by decide) (by decide) (by decide)
      (by decide)⟩

end UtilityTools
